import Mathlib

/-!
Shallow embedding of the neupy training-orchestration core
(`neupy/network/base.py`, `neupy/algorithms/steps/simple_step_minimization.py`)
used to check the natural-language specification against the code.

Numeric values (numpy floats, theano scalars) are modelled as rationals;
Python exceptions are modelled with `Except`/`Option` results.
-/

namespace Neupy

/-! ## Cadence parsing (`parse_show_epoch_property`, base.py lines 149-161) -/

/-- The `show_epoch` constructor option: either a plain positive integer
(render every Nth epoch) or a string of the form `"N times"`, modelled by its
parsed positive payload `N`. -/
inductive ShowEpochSpec
  | int : ℕ → ShowEpochSpec
  | times : ℕ → ShowEpochSpec
  deriving DecidableEq

/-- Embedding of `parse_show_epoch_property(value, n_epochs)`.  The source
returns `value` unchanged for integers; for a string `"N times"` it returns
`1` when `n_epochs <= N` and otherwise `int(round(n_epochs / n_epochs_to_check))`
(true division, then Python `round`; for positive arguments Python 2 `round`
is round-half-up, which is Mathlib `round`). -/
def parse_show_epoch_property : ShowEpochSpec → ℕ → ℕ
  | .int v, _ => v
  | .times n, n_epochs =>
    if n_epochs ≤ n then 1
    else (round ((n_epochs : ℚ) / (n : ℚ))).toNat

/-! ## Progress-summary cadence generator (`show_epoch_summary`, base.py lines 31-79) -/

/-- State of the `show_epoch_summary` generator: the deque of wall-clock gaps
(`terminal_output_delays`, maxlen 10), the previous render time
(`prev_summary_time`), the own `show_epoch` value of the generator, and ghost
counters for emitted advisories and rendered rows. -/
structure SummaryState where
  delays : List ℚ
  prevTime : Option ℚ
  showEpoch : ℕ
  advisories : ℕ
  rows : ℕ
  deriving DecidableEq

/-- Append to a `deque(maxlen=10)`: push on the right, drop the leftmost
element when the length would exceed 10. -/
def pushDelay (l : List ℚ) (d : ℚ) : List ℚ :=
  let l2 := l ++ [d]
  if 10 < l2.length then l2.tail else l2

/-- The delay buffer after the append step at the top of one generator
iteration: a gap `now - prev_summary_time` is recorded only when a previous
render time exists. -/
def postDelays (now : ℚ) (s : SummaryState) : List ℚ :=
  match s.prevTime with
  | some p => pushDelay s.delays (now - p)
  | none => s.delays

/-- Arithmetic mean (`np.mean`) of the delay buffer. -/
def meanGap (l : List ℚ) : ℚ := l.sum / (l.length : ℚ)

/-- One `next()` step of the `show_epoch_summary` generator, with `now` the
`time.time()` sample taken at the top of the iteration.  Mirrors the source:
record the gap, render a row, remember `now`; when the buffer holds 10 gaps,
reset `prev_summary_time`, and if the mean gap is under the 1-second limit
multiply `show_epoch` by `math.ceil(1 / mean)`, emit the advisory and clear
the buffer. -/
def summaryStep (now : ℚ) (s : SummaryState) : SummaryState :=
  let delays := postDelays now s
  let s1 : SummaryState :=
    { s with delays := delays, prevTime := some now, rows := s.rows + 1 }
  if delays.length = 10 then
    let avg := meanGap delays
    if avg < 1 then
      { s1 with
        prevTime := none
        delays := []
        showEpoch := s1.showEpoch * (⌈(1 : ℚ) / avg⌉).toNat
        advisories := s1.advisories + 1 }
    else { s1 with prevTime := none }
  else s1

/-! ## Symbolic expressions and shared scalars

The theano graph backend is out of scope for the source tree; following the
contract in the specification we model symbolic expressions over variables as
a small arithmetic language with an evaluator, and matrices as scalars. -/

/-- A mutable graph variable: the shared `step` scalar, the shared `epoch`
scalar, or a layer parameter identified by an index. -/
inductive SVar
  | step
  | epoch
  | param : ℕ → SVar
  deriving DecidableEq

/-- Symbolic arithmetic expressions over a variable type `V`. -/
inductive Expr (V : Type)
  | const : ℚ → Expr V
  | var : V → Expr V
  | add : Expr V → Expr V → Expr V
  | mul : Expr V → Expr V → Expr V
  | div : Expr V → Expr V → Expr V
  deriving DecidableEq

/-- Evaluate an expression under an assignment of the variables. -/
def Expr.eval {V : Type} (ρ : V → ℚ) : Expr V → ℚ
  | .const c => c
  | .var v => ρ v
  | .add a b => a.eval ρ + b.eval ρ
  | .mul a b => a.eval ρ * b.eval ρ
  | .div a b => a.eval ρ / b.eval ρ

/-! ## SimpleStepMinimization (`simple_step_minimization.py` lines 45-52) -/

/-- The step-decay expression built by `SimpleStepMinimization.init_train_updates`:
`self.first_step / (1 + variables.epoch / self.epochs_step_minimizator)`. -/
def simpleStepExpr (first_step : ℚ) (epochs_step_minimizator : ℕ) : Expr SVar :=
  .div (.const first_step)
    (.add (.const 1) (.div (.var .epoch) (.const (epochs_step_minimizator : ℚ))))

/-- Embedding of `SimpleStepMinimization.init_train_updates`: call the next
composer in the `super()` chain (its result is the `base` argument), then
append a single `(variables.step, new_step)` pair.  `first_step` is modelled
from the spec: the `SingleStep` base class (not under `src/`) stores a fixed
copy of the initial `step` value at model-construction time. -/
def simpleStepMinimization_init_train_updates (base : List (SVar × Expr SVar))
    (first_step : ℚ) (epochs_step_minimizator : ℕ) : List (SVar × Expr SVar) :=
  base ++ [(SVar.step, simpleStepExpr first_step epochs_step_minimizator)]

/-- The assignment of shared scalars seen by an update expression during one
epoch: current step value `σ`, current epoch `e`; layer parameters are
irrelevant to the step rule and read as `0`. -/
def envFor (σ : ℚ) (e : ℕ) : SVar → ℚ
  | .step => σ
  | .epoch => (e : ℚ)
  | .param _ => 0

/-- The shared step scalar after `epochs` completed training epochs: each
epoch `e` of `1..epochs` first writes `e` into the shared epoch scalar
(`epoch_start_update`) and then the train-epoch unit assigns the step scalar
the value of the decay expression. -/
def stepScalarAfter (first_step : ℚ) (period : ℕ) (epochs : ℕ) (σ0 : ℚ) : ℚ :=
  List.foldl (fun σ e => (simpleStepExpr first_step period).eval (envFor σ e))
    σ0 (List.range' 1 epochs)

/-! ## Compiled computation units (`ConstructableNetwork.init_methods`, base.py 557-577)

`theano.function` is the external graph backend; following the contract in
the specification it is modelled as: evaluate the output expression in the
pre-call environment and then apply all update pairs as one simultaneous
assignment, each update expression also evaluated in the pre-call
environment. -/

/-- Combined assignment for graph expressions: shared variables and
parameters read from `env`, the network input placeholders (indexed
numerically) read from `ival`. -/
def mergeEnv (ival : ℕ → ℚ) (env : SVar → ℚ) : SVar ⊕ ℕ → ℚ
  | .inl s => env s
  | .inr i => ival i

/-- Modelled from the spec: the GraphBackend `compile` contract — a compiled
callable evaluates its output expression on the concrete inputs, then applies
every `(target, expr)` update pair atomically after evaluation, every update
expression reading pre-update values (simultaneous assignment). -/
def theanoFunction (out : Expr (SVar ⊕ ℕ)) (updates : List (SVar × Expr (SVar ⊕ ℕ)))
    (ival : ℕ → ℚ) (env : SVar → ℚ) : ℚ × (SVar → ℚ) :=
  let ρ := mergeEnv ival env
  (out.eval ρ, fun v =>
    match updates.lookup v with
    | some e => e.eval ρ
    | none => env v)

/-- The three compiled units owned by a constructable network. -/
structure CompiledMethods where
  train_epoch : (ℕ → ℚ) → (SVar → ℚ) → ℚ × (SVar → ℚ)
  prediction_error : (ℕ → ℚ) → (SVar → ℚ) → ℚ × (SVar → ℚ)
  predict_raw : (ℕ → ℚ) → (SVar → ℚ) → ℚ × (SVar → ℚ)

/-- Embedding of `ConstructableNetwork.init_methods`: `train_epoch` is
compiled from the error expression with the resolved train updates,
`prediction_error` from the same error expression with no updates, and
`predict_raw` from the prediction expression with no updates. -/
def init_methods (error_func prediction_func : Expr (SVar ⊕ ℕ))
    (train_updates : List (SVar × Expr (SVar ⊕ ℕ))) : CompiledMethods where
  train_epoch := theanoFunction error_func train_updates
  prediction_error := theanoFunction error_func []
  predict_raw := theanoFunction prediction_func []

/-! ## Layer pipeline construction (`clean_layers`, base.py lines 445-481) -/

/-- A layer object: default-activation layers (`Sigmoid`/`Tanh`) carrying a
size, and the terminal `Output` layer. -/
inductive PyLayer
  | sigmoid : ℕ → PyLayer
  | tanh : ℕ → PyLayer
  | output : ℕ → PyLayer
  deriving DecidableEq

/-- The `isinstance(layer, Output)` capability check. -/
def isOutputLayer : PyLayer → Bool
  | .output _ => true
  | _ => false

/-- The `connection.output_layer` terminal-capability check: the last layer
of the chain must be an `Output` instance. -/
def outputOk (c : List PyLayer) : Bool :=
  match c.getLast? with
  | some l => isOutputLayer l
  | none => false

/-- Modelled from the spec: `generate_layers` (`neupy/layers/utils.py`, not
under `src/`) expands a list of integer sizes into default-activation
(sigmoid) layers for all but the last size, with an `Output` layer for the
last size, so the produced chain has one layer per listed size. -/
def generate_layers (sizes : List ℕ) : List PyLayer :=
  match sizes.getLast? with
  | none => []
  | some last => sizes.dropLast.map PyLayer.sigmoid ++ [PyLayer.output last]

/-- A raw layer-connection specification: a list of integers, a list of layer
objects, or a pre-chained connection object (represented by its ordered layer
list). -/
inductive ConnSpec
  | ints : List ℕ → ConnSpec
  | layerList : List PyLayer → ConnSpec
  | chained : List PyLayer → ConnSpec

/-- The pairwise chaining loop of `clean_layers`: `chain = connection.pop()`
(raises on an empty list, modelled as `none`), then for every remaining layer
in reversed order `chain = LayerConnection(layer, chain)`; a connection is
represented by its ordered layer list, so each fold step prepends a layer. -/
def chainLayers (ls : List PyLayer) : Option (List PyLayer) :=
  match ls.getLast? with
  | none => none
  | some last => some (ls.dropLast.foldr (fun l acc => l :: acc) [last])

/-- Embedding of `clean_layers`: integer lists go through `generate_layers`
and are then chained like a layer list; layer lists are chained pairwise;
a pre-chained connection passes through; in every branch the resolved
output layer of the resolved connection must be an `Output` instance, otherwise
`NetworkConnectionError` is raised. -/
def clean_layers (spec : ConnSpec) : Except String (List PyLayer) :=
  let resolved : Except String (List PyLayer) :=
    match spec with
    | .ints ns =>
      match chainLayers (generate_layers ns) with
      | some c => .ok c
      | none => .error "IndexError: pop from empty list"
    | .layerList ls =>
      match chainLayers ls with
      | some c => .ok c
      | none => .error "IndexError: pop from empty list"
    | .chained ls => .ok ls
  match resolved with
  | .error e => .error e
  | .ok conn =>
    if outputOk conn then .ok conn
    else .error "Final layer must be Output class instance."

/-! ## The training loop (`BaseNetwork._train`, base.py lines 256-385)

Training data tensors are modelled as lists of rationals (one entry per row).
The compiled train-epoch unit is a run parameter: it receives the current
training tensors and the shared epoch and step scalars, and either returns
`(training error, new step value)` or raises `StopNetworkTraining`
(modelled as `Except.error` with the message). -/

/-- A training tensor: one rational per row. -/
abbrev Data := List ℚ

/-- Persistent network state (`self`), plus ghost instrumentation: `trace`
records the shared epoch scalar observed at each call of the train-epoch
unit, `cadenceUsed` records the reporting interval resolved before the loop,
`stopped` records the `StopNetworkTraining` early-exit, and the `*Calls`
fields count signal invocations. -/
structure NetState where
  errors_in : List ℚ
  errors_out : List ℚ
  epoch : ℕ
  sharedEpoch : ℕ
  sharedStep : ℚ
  input_train : Option Data
  target_train : Option Data
  train_epoch_time : Option ℚ
  warnings : ℕ
  trainEndCalls : ℕ
  epochEndCalls : ℕ
  trace : List ℕ
  cadenceUsed : ℕ
  stopped : Bool
  deriving DecidableEq

/-- A fresh network: empty error history, no signals fired yet. -/
def initialNet : NetState where
  errors_in := []
  errors_out := []
  epoch := 0
  sharedEpoch := 1
  sharedStep := 1 / 10
  input_train := none
  target_train := none
  train_epoch_time := none
  warnings := 0
  trainEndCalls := 0
  epochEndCalls := 0
  trace := []
  cadenceUsed := 0
  stopped := false

/-- Ephemeral per-run state: the network, the summary-generator state, the
local `show_epoch` and `last_epoch_shown` variables of the loop, and a counter of
`time.time()` samples taken so far (the clock is a run parameter mapping the
sample index to a time). -/
structure RunState where
  net : NetState
  sum : SummaryState
  showEpoch : ℕ
  lastEpochShown : ℕ
  clock : ℕ
  deriving DecidableEq

/-- The collaborators of one training run: the wall clock (`time.time()`
sample sequence), the compiled train-epoch unit, the held-out
`prediction_error` evaluation (per epoch), the two optional signal
callbacks, and the shuffle policy. -/
structure TrainCtx where
  timeAt : ℕ → ℚ
  trainEpoch : Data → Option Data → ℕ → ℚ → Except String (ℚ × ℚ)
  predictionError : ℕ → ℚ
  hasEpochEnd : Bool
  hasTrainEnd : Bool
  shuffleData : Bool
  shuf : Data → Option Data → Data × Option Data

/-- The pre-call part of one loop iteration: advance the clock past the
epoch-start `time.time()` sample, run `epoch_start_update` (write the epoch
number to the model and into the shared epoch scalar), optionally shuffle
the training tensors in lockstep, and record the observed shared epoch
scalar in the ghost trace just as the train-epoch unit is about to read
it. -/
def preStep (ctx : TrainCtx) (e : ℕ) (s : RunState) : RunState :=
  let s := { s with clock := s.clock + 1 }
  let s := { s with net := { s.net with epoch := e, sharedEpoch := e } }
  let s :=
    if ctx.shuffleData then
      match s.net.input_train with
      | some it =>
        let p := ctx.shuf it s.net.target_train
        { s with net := { s.net with input_train := some p.1, target_train := p.2 } }
      | none => s
    else s
  { s with net := { s.net with trace := s.net.trace ++ [s.net.sharedEpoch] } }

/-- One iteration of the epoch loop (`for epoch in iterepochs`): run the
pre-call step, call the train-epoch unit — on `StopNetworkTraining` log and
break (second component `true`) — otherwise append the held-out error when a
validation set is present, append the training error, record the epoch
duration, on the cadence boundary pull the next value from the summary
generator and remember the rendered epoch, and finally fire the epoch-end
signal. -/
def epochBody (ctx : TrainCtx) (computeErrorOut : Bool) (e : ℕ) (s : RunState) :
    RunState × Bool :=
  let t0 := ctx.timeAt s.clock
  let s1 := preStep ctx e s
  match ctx.trainEpoch (s1.net.input_train.getD []) s1.net.target_train
      s1.net.sharedEpoch s1.net.sharedStep with
  | .error _ => ({ s1 with net := { s1.net with stopped := true } }, true)
  | .ok (err, newStep) =>
    let s := { s1 with net := { s1.net with sharedStep := newStep } }
    let s :=
      if computeErrorOut then
        { s with net := { s.net with
            errors_out := s.net.errors_out ++ [ctx.predictionError e] } }
      else s
    let s := { s with net := { s.net with errors_in := s.net.errors_in ++ [err] } }
    let t1 := ctx.timeAt s.clock
    let s := { s with
      clock := s.clock + 1
      net := { s.net with train_epoch_time := some (t1 - t0) } }
    let s :=
      if e % s.showEpoch = 0 ∨ e = 1 then
        let sum2 := summaryStep (ctx.timeAt s.clock) s.sum
        { s with
          clock := s.clock + 1
          sum := sum2
          showEpoch := sum2.showEpoch
          lastEpochShown := e }
      else s
    let s :=
      if ctx.hasEpochEnd then
        { s with net := { s.net with epochEndCalls := s.net.epochEndCalls + 1 } }
      else s
    (s, false)

/-- The fixed-count epoch loop (`epsilon is None`): iterate the given epoch
numbers, breaking on `StopNetworkTraining`.  Returns the final state and the
last value of the Python loop variable `epoch` (`none` when the loop body
never ran, so the variable was never bound). -/
def runEpochs (ctx : TrainCtx) (ceo : Bool) : List ℕ → RunState → RunState × Option ℕ
  | [], s => (s, none)
  | e :: rest, s =>
    let r := epochBody ctx ceo e s
    if r.2 then (r.1, some e)
    else
      let r2 := runEpochs ctx ceo rest r.1
      (r2.1, some (r2.2.getD e))

/-- Modelled from the spec: `iter_until_converge` (`neupy/network/utils.py`,
not under `src/`) yields epoch numbers starting from 1 and stops when the
improvement between the two most recent training errors falls below
`epsilon`, or when `max_epochs` is reached, whichever comes first.  The fuel
argument bounds the recursion by `max_epochs`. -/
def runEpochsConverge (ctx : TrainCtx) (ceo : Bool) (ε : ℚ) (maxEpochs : ℕ) :
    ℕ → ℕ → RunState → RunState × Option ℕ
  | _, 0, s => (s, none)
  | e, fuel + 1, s =>
    let r := epochBody ctx ceo e s
    if r.2 then (r.1, some e)
    else if maxEpochs ≤ e then (r.1, some e)
    else
      match r.1.net.errors_in.reverse with
      | b :: a :: _ =>
        if |b - a| < ε then (r.1, some e)
        else
          let r2 := runEpochsConverge ctx ceo ε maxEpochs (e + 1) fuel r.1
          (r2.1, some (r2.2.getD e))
      | _ =>
        let r2 := runEpochsConverge ctx ceo ε maxEpochs (e + 1) fuel r.1
        (r2.1, some (r2.2.getD e))

/-- Python exceptions that can escape `_train`. -/
inductive PyError
  | valueError
  | nameError
  deriving DecidableEq

/-- The code after the loop (base.py lines 378-385): `if epoch !=
last_epoch_shown: next(epoch_summary)` — reading the loop variable raises
`NameError` when the loop never ran — then fire `train_end_signal` once when
it is set and close the summary generator. -/
def afterLoop (ctx : TrainCtx) : RunState × Option ℕ → RunState × Option PyError
  | (s, none) => (s, some .nameError)
  | (s, some lastE) =>
    let s :=
      if lastE ≠ s.lastEpochShown then
        { s with clock := s.clock + 1, sum := summaryStep (ctx.timeAt s.clock) s.sum }
      else s
    let s :=
      if ctx.hasTrainEnd then
        { s with net := { s.net with trainEndCalls := s.net.trainEndCalls + 1 } }
      else s
    (s, none)

/-- The `show_epoch` resolution in `_train` (base.py lines 295-306): in
convergence mode a string cadence is replaced by the fixed interval 100 with
one warning, while an integer cadence is kept; otherwise the cadence spec is
parsed against the total epoch count.  Returns the resolved interval and the
number of warnings logged. -/
def resolveShowEpoch (epsilon : Option ℚ) (spec : ShowEpochSpec) (epochs : ℕ) : ℕ × ℕ :=
  match epsilon with
  | some _ =>
    match spec with
    | .times _ => (100, 1)
    | .int v => (v, 0)
  | none => (parse_show_epoch_property spec epochs, 0)

/-- Initial summary-generator state created by `show_epoch_summary`. -/
def initSummary (k : ℕ) : SummaryState where
  delays := []
  prevTime := none
  showEpoch := k
  advisories := 0
  rows := 0

/-- Embedding of `BaseNetwork._train`: format the data (a pure reshape, the
identity here), raise `ValueError` when `epsilon` is given with `epochs <=
2`, resolve the reporting cadence, store the training tensors on the model,
run the epoch loop (fixed range `1..epochs` or the convergence iterator),
then the post-loop render, end-of-training signal and generator shutdown.
Returns the final network state together with the escaped exception, if
any. -/
def pyTrain (ctx : TrainCtx) (spec : ShowEpochSpec) (epsilon : Option ℚ) (epochs : ℕ)
    (input_train : Data) (target_train : Option Data)
    (input_test target_test : Option Data) (s0 : NetState) : NetState × Option PyError :=
  if epsilon.isSome ∧ epochs ≤ 2 then (s0, some .valueError)
  else
    let ke := resolveShowEpoch epsilon spec epochs
    let ceo := input_test.isSome && target_test.isSome
    let net1 := { s0 with
      warnings := s0.warnings + ke.2
      cadenceUsed := ke.1
      input_train := some input_train
      target_train := target_train }
    let rs : RunState :=
      { net := net1, sum := initSummary ke.1, showEpoch := ke.1,
        lastEpochShown := 0, clock := 0 }
    let res :=
      match epsilon with
      | none => runEpochs ctx ceo (List.range' 1 epochs) rs
      | some ε => runEpochsConverge ctx ceo ε epochs 1 epochs rs
    let fin := afterLoop ctx res
    (fin.1.net, fin.2)

/-! ## Theorems -/

/-- C2 counterexample: the claim says the parsed interval for `"N times"`
equals `ceil(total_epochs / N)` whenever `total_epochs > N`, but the source
uses `int(round(...))`: for `"10 times"` with `n_epochs = 11` the code yields
`round(1.1) = 1` while `ceil(11/10) = 2`. -/
theorem C2_counterexample :
    parse_show_epoch_property (ShowEpochSpec.times 10) 11 ≠ (⌈(11 : ℚ) / 10⌉).toNat := by
  have h1 : parse_show_epoch_property (ShowEpochSpec.times 10) 11 = 1 := by
    simp only [parse_show_epoch_property]
    norm_num [round_eq]
  have h2 : (⌈(11 : ℚ) / 10⌉) = 2 := by
    rw [Int.ceil_eq_iff]
    norm_num
  rw [h1, h2]
  decide

/-- C2 (amended): for a cadence `"N times"` with `0 < N`, the parsed interval
is the integer nearest to `total_epochs / N` (within `1/2`, ties rounded up,
per Python `round`) when `total_epochs > N`, and `1` when
`total_epochs ≤ N`; in particular `"10 times"` with `n_epochs = 100` gives
10 and with `n_epochs = 5` gives 1. -/
theorem C2_amended :
    (∀ N n : ℕ, 0 < N → N < n →
      |(n : ℚ) / (N : ℚ) - (parse_show_epoch_property (ShowEpochSpec.times N) n : ℚ)| ≤ 1 / 2
      ∧ parse_show_epoch_property (ShowEpochSpec.times N) n
          = (round ((n : ℚ) / (N : ℚ))).toNat)
    ∧ (∀ N n : ℕ, n ≤ N → parse_show_epoch_property (ShowEpochSpec.times N) n = 1)
    ∧ parse_show_epoch_property (ShowEpochSpec.times 10) 100 = 10
    ∧ parse_show_epoch_property (ShowEpochSpec.times 10) 5 = 1 := by
  have hval100 : parse_show_epoch_property (ShowEpochSpec.times 10) 100 = 10 := by
    simp only [parse_show_epoch_property]
    norm_num [round_eq]
    decide
  refine ⟨?_, ?_, hval100, by simp [parse_show_epoch_property]⟩
  · intro N n hN hn
    have hq : (1 : ℚ) < (n : ℚ) / (N : ℚ) := by
      rw [lt_div_iff₀ (by exact_mod_cast hN)]
      simpa using (by exact_mod_cast hn : (N : ℚ) < (n : ℚ))
    have hparse : parse_show_epoch_property (ShowEpochSpec.times N) n
        = (round ((n : ℚ) / (N : ℚ))).toNat := by
      simp only [parse_show_epoch_property]
      rw [if_neg (not_le.mpr hn)]
    refine ⟨?_, hparse⟩
    have hround : (1 : ℤ) ≤ round ((n : ℚ) / (N : ℚ)) := by
      rw [round_eq, Int.le_floor]
      push_cast
      linarith
    have hcast : ((parse_show_epoch_property (ShowEpochSpec.times N) n : ℕ) : ℚ)
        = ((round ((n : ℚ) / (N : ℚ)) : ℤ) : ℚ) := by
      rw [hparse]
      exact_mod_cast congrArg (fun z : ℤ => (z : ℚ))
        (Int.toNat_of_nonneg (le_trans (by norm_num) hround))
    rw [hcast]
    exact abs_sub_round ((n : ℚ) / (N : ℚ))
  · intro N n h
    simp only [parse_show_epoch_property]
    rw [if_pos h]

/-- C2 witness: `"10 times"` with `n_epochs = 25` parses to 3
(`round 2.5 = 3`), within half of `25/10`. -/
theorem C2_witness :
    0 < (10 : ℕ) ∧ (10 : ℕ) < 25
    ∧ |(25 : ℚ) / (10 : ℚ) - (parse_show_epoch_property (ShowEpochSpec.times 10) 25 : ℚ)| ≤ 1 / 2
    ∧ (5 : ℕ) ≤ 10 ∧ parse_show_epoch_property (ShowEpochSpec.times 10) 5 = 1 :=
  ⟨by decide, by decide, (C2_amended.1 10 25 (by decide) (by decide)).1,
   by decide, C2_amended.2.1 10 5 (by decide)⟩

/-- C5: the monotonic step-decay composer appends exactly one extra
`(shared step, new_step)` pair after the base composer runs; its expression
evaluates to `initial_step / (1 + current_epoch / decay_period)` regardless
of the current (possibly already-decayed) step value; iterating the update
over epochs `1..n+1` leaves the step at the value determined by the final
epoch alone; and with `initial_step = 0.3`, `decay_period = 50`, after 100
completed epochs the shared step scalar equals `0.3 / (1 + 100/50) = 0.1`
exactly. -/
theorem C5_theorem :
    ∀ (base : List (SVar × Expr SVar)) (fs : ℚ) (p : ℕ),
      simpleStepMinimization_init_train_updates base fs p
          = base ++ [(SVar.step, simpleStepExpr fs p)]
      ∧ (∀ (e : ℕ) (σ σ2 : ℚ),
          (simpleStepExpr fs p).eval (envFor σ e) = fs / (1 + (e : ℚ) / (p : ℚ))
          ∧ (simpleStepExpr fs p).eval (envFor σ e)
              = (simpleStepExpr fs p).eval (envFor σ2 e))
      ∧ (∀ (σ0 : ℚ) (n : ℕ),
          stepScalarAfter fs p (n + 1) σ0 = fs / (1 + ((n + 1 : ℕ) : ℚ) / (p : ℚ)))
      ∧ (∀ σ0 : ℚ, stepScalarAfter (3 / 10) 50 100 σ0 = 1 / 10) := by
  have heval : ∀ (fs : ℚ) (p : ℕ) (e : ℕ) (σ : ℚ),
      (simpleStepExpr fs p).eval (envFor σ e) = fs / (1 + (e : ℚ) / (p : ℚ)) := by
    intro fs p e σ
    simp [simpleStepExpr, Expr.eval, envFor]
  have hfold : ∀ (fs : ℚ) (p : ℕ) (σ0 : ℚ) (n : ℕ),
      stepScalarAfter fs p (n + 1) σ0 = fs / (1 + ((n + 1 : ℕ) : ℚ) / (p : ℚ)) := by
    intro fs p σ0 n
    unfold stepScalarAfter
    rw [List.range'_concat, List.foldl_append]
    simp [heval]
    ring_nf
  intro base fs p
  refine ⟨rfl, fun e σ σ2 => ⟨heval fs p e σ, by rw [heval, heval]⟩,
    hfold fs p, fun σ0 => ?_⟩
  have h := hfold (3 / 10) 50 σ0 99
  norm_num at h
  exact h

/-- C9: the three compiled units from `init_methods` — `prediction_error`
and `predict_raw` are compiled with no update pairs, so they leave every
shared scalar and parameter unchanged on any input; `train_epoch` returns
the error expression evaluated in the pre-call environment and assigns each
targeted variable the value of its update expression evaluated in the same
pre-call environment (simultaneous assignment), leaving untargeted
variables unchanged. -/
theorem C9_theorem :
    ∀ (ef pf : Expr (SVar ⊕ ℕ)) (U : List (SVar × Expr (SVar ⊕ ℕ)))
      (ival : ℕ → ℚ) (env : SVar → ℚ),
      ((init_methods ef pf U).prediction_error ival env).2 = env
      ∧ ((init_methods ef pf U).predict_raw ival env).2 = env
      ∧ ((init_methods ef pf U).prediction_error ival env).1 = ef.eval (mergeEnv ival env)
      ∧ ((init_methods ef pf U).train_epoch ival env).1 = ef.eval (mergeEnv ival env)
      ∧ (∀ (v : SVar) (e : Expr (SVar ⊕ ℕ)), U.lookup v = some e →
          ((init_methods ef pf U).train_epoch ival env).2 v = e.eval (mergeEnv ival env))
      ∧ (∀ v : SVar, U.lookup v = none →
          ((init_methods ef pf U).train_epoch ival env).2 v = env v) := by
  intro ef pf U ival env
  refine ⟨funext fun v => rfl, funext fun v => rfl, rfl, rfl, ?_, ?_⟩
  · intro v e h
    simp [init_methods, theanoFunction, h]
  · intro v h
    simp [init_methods, theanoFunction, h]

/-- A swap of the two shared scalars, used to exhibit the simultaneous
(rather than sequential) assignment semantics of the train-epoch unit. -/
def swapUpdates : List (SVar × Expr (SVar ⊕ ℕ)) :=
  [(SVar.step, Expr.var (Sum.inl SVar.epoch)), (SVar.epoch, Expr.var (Sum.inl SVar.step))]

/-- An environment with step 5 and epoch 2. -/
def env52 : SVar → ℚ
  | .step => 5
  | .epoch => 2
  | .param _ => 0

/-- C9 witness: with updates swapping step and epoch from `(5, 2)`, the
compiled train-epoch unit produces `(2, 5)` — each update read the pre-update
values — while the no-update units leave the environment unchanged. -/
theorem C9_witness :
    ((init_methods (Expr.var (Sum.inl SVar.step)) (Expr.const 0) swapUpdates).train_epoch
        (fun _ => 0) env52).2 SVar.step = 2
    ∧ ((init_methods (Expr.var (Sum.inl SVar.step)) (Expr.const 0) swapUpdates).train_epoch
        (fun _ => 0) env52).2 SVar.epoch = 5
    ∧ ((init_methods (Expr.var (Sum.inl SVar.step)) (Expr.const 0) swapUpdates).prediction_error
        (fun _ => 0) env52).2 = env52 := by
  refine ⟨?_, ?_,
    (C9_theorem (Expr.var (Sum.inl SVar.step)) (Expr.const 0) swapUpdates (fun _ => 0) env52).1⟩
  · have h := (C9_theorem (Expr.var (Sum.inl SVar.step)) (Expr.const 0) swapUpdates
      (fun _ => 0) env52).2.2.2.2.1 SVar.step (Expr.var (Sum.inl SVar.epoch)) rfl
    simpa [Expr.eval, mergeEnv, env52] using h
  · have h := (C9_theorem (Expr.var (Sum.inl SVar.step)) (Expr.const 0) swapUpdates
      (fun _ => 0) env52).2.2.2.2.1 SVar.epoch (Expr.var (Sum.inl SVar.step)) rfl
    simpa [Expr.eval, mergeEnv, env52] using h

/-- The maxlen-10 deque append never grows the buffer beyond 10. -/
theorem pushDelay_length_le (l : List ℚ) (d : ℚ) (h : l.length ≤ 10) :
    (pushDelay l d).length ≤ 10 := by
  simp only [pushDelay]
  split
  · simp only [List.length_tail, List.length_append, List.length_singleton]
    omega
  · next hle =>
    simp only [not_lt, List.length_append, List.length_singleton] at hle
    simpa using hle

/-- C8: the delay buffer of the progress reporter never exceeds capacity 10;
whenever the buffer fills (10 recorded gaps) with a positive mean gap below
the 1-second floor, one generator step multiplies the cadence by
`ceil(1 / mean)` — hence strictly increases it, since that factor is at
least 2 — clears the buffer and emits the advisory exactly once; and a step
without such a breach emits no advisory. -/
theorem C8_theorem :
    (∀ (now : ℚ) (s : SummaryState), s.delays.length ≤ 10 →
        (summaryStep now s).delays.length ≤ 10)
    ∧ (∀ (now : ℚ) (s : SummaryState),
        (postDelays now s).length = 10 →
        0 < meanGap (postDelays now s) →
        meanGap (postDelays now s) < 1 →
        1 ≤ s.showEpoch →
        (summaryStep now s).showEpoch
            = s.showEpoch * (⌈(1 : ℚ) / meanGap (postDelays now s)⌉).toNat
        ∧ s.showEpoch < (summaryStep now s).showEpoch
        ∧ (summaryStep now s).delays = []
        ∧ (summaryStep now s).advisories = s.advisories + 1)
    ∧ (∀ (now : ℚ) (s : SummaryState),
        ¬((postDelays now s).length = 10 ∧ meanGap (postDelays now s) < 1) →
        (summaryStep now s).advisories = s.advisories) := by
  refine ⟨?_, ?_, ?_⟩
  · intro now s h
    have hpost : (postDelays now s).length ≤ 10 := by
      unfold postDelays
      split
      · exact pushDelay_length_le _ _ h
      · exact h
    simp only [summaryStep]
    split
    · split
      · simp
      · simpa using hpost
    · simpa using hpost
  · intro now s hfull hpos hlt hK
    have hfactor : 2 ≤ (⌈(1 : ℚ) / meanGap (postDelays now s)⌉).toNat := by
      have h1 : (1 : ℚ) < 1 / meanGap (postDelays now s) := by
        rw [lt_div_iff₀ hpos]
        simpa using hlt
      have h2 : (1 : ℤ) < ⌈(1 : ℚ) / meanGap (postDelays now s)⌉ := by
        rw [Int.lt_ceil]
        exact_mod_cast h1
      omega
    have hstep : summaryStep now s =
        { delays := []
          prevTime := none
          showEpoch := s.showEpoch * (⌈(1 : ℚ) / meanGap (postDelays now s)⌉).toNat
          advisories := s.advisories + 1
          rows := s.rows + 1 } := by
      simp only [summaryStep]
      rw [if_pos hfull, if_pos hlt]
    rw [hstep]
    refine ⟨rfl, ?_, rfl, rfl⟩
    have hKpos : 0 < s.showEpoch := hK
    exact (lt_mul_iff_one_lt_right hKpos).mpr (by omega)
  · intro now s hnot
    simp only [summaryStep]
    split
    · next hfull =>
      split
      · next hlt => exact absurd ⟨hfull, hlt⟩ hnot
      · rfl
    · rfl

/-- C8 witness: a buffer holding nine gaps of one half second, with a tenth
half-second gap arriving: the mean is one half, the cadence 10 is multiplied
by `ceil 2 = 2` to 20, the buffer is cleared and the advisory fires once. -/
theorem C8_witness :
    (postDelays (21 / 2) ⟨[1/2, 1/2, 1/2, 1/2, 1/2, 1/2, 1/2, 1/2, 1/2], some 10, 10, 0, 0⟩).length = 10
    ∧ 0 < meanGap (postDelays (21 / 2) ⟨[1/2, 1/2, 1/2, 1/2, 1/2, 1/2, 1/2, 1/2, 1/2], some 10, 10, 0, 0⟩)
    ∧ (summaryStep (21 / 2) ⟨[1/2, 1/2, 1/2, 1/2, 1/2, 1/2, 1/2, 1/2, 1/2], some 10, 10, 0, 0⟩).showEpoch > 10
    ∧ (summaryStep (21 / 2) ⟨[1/2, 1/2, 1/2, 1/2, 1/2, 1/2, 1/2, 1/2, 1/2], some 10, 10, 0, 0⟩).advisories = 1 := by
  have hlen : (postDelays (21 / 2)
      ⟨[1/2, 1/2, 1/2, 1/2, 1/2, 1/2, 1/2, 1/2, 1/2], some 10, 10, 0, 0⟩).length = 10 := by
    norm_num [postDelays, pushDelay]
  have hpos : 0 < meanGap (postDelays (21 / 2)
      ⟨[1/2, 1/2, 1/2, 1/2, 1/2, 1/2, 1/2, 1/2, 1/2], some 10, 10, 0, 0⟩) := by
    norm_num [postDelays, pushDelay, meanGap]
  have hlt : meanGap (postDelays (21 / 2)
      ⟨[1/2, 1/2, 1/2, 1/2, 1/2, 1/2, 1/2, 1/2, 1/2], some 10, 10, 0, 0⟩) < 1 := by
    norm_num [postDelays, pushDelay, meanGap]
  have h := C8_theorem.2.1 (21 / 2)
    ⟨[1/2, 1/2, 1/2, 1/2, 1/2, 1/2, 1/2, 1/2, 1/2], some 10, 10, 0, 0⟩
    hlen hpos hlt (by norm_num)
  exact ⟨hlen, hpos, h.2.1, h.2.2.2⟩

/-- Folding cons over a list prepends it to the accumulator. -/
theorem foldr_cons_append (l acc : List PyLayer) :
    l.foldr (fun a b => a :: b) acc = l ++ acc := by
  induction l with
  | nil => rfl
  | cons a t ih => simp [ih]

/-- The pairwise chaining loop of `clean_layers` rebuilds exactly the input
layer sequence (pop the last, then prepend the rest right-to-left). -/
theorem chainLayers_eq_self (ls : List PyLayer) (h : ls ≠ []) : chainLayers ls = some ls := by
  unfold chainLayers
  rw [List.getLast?_eq_getLast ls h]
  simp only [foldr_cons_append]
  rw [List.dropLast_append_getLast h]

/-- C6: for an integer-list specification of length at least 2 the builder
produces a chain with one layer per listed size whose final layer is an
`Output` instance; every successfully resolved connection, from any branch,
passes the terminal-capability check; and a layer-list specification whose
last layer is not output-capable fails with the invalid-connection error. -/
theorem C6_theorem :
    (∀ ns : List ℕ, 2 ≤ ns.length →
      clean_layers (ConnSpec.ints ns) = Except.ok (generate_layers ns)
      ∧ (generate_layers ns).length = ns.length
      ∧ outputOk (generate_layers ns) = true)
    ∧ (∀ (spec : ConnSpec) (c : List PyLayer),
        clean_layers spec = Except.ok c → outputOk c = true)
    ∧ (∀ ls : List PyLayer, ls ≠ [] → outputOk ls = false →
        clean_layers (ConnSpec.layerList ls)
          = Except.error "Final layer must be Output class instance.") := by
  have hgen : ∀ (ns : List ℕ) (h : ns ≠ []),
      generate_layers ns = ns.dropLast.map PyLayer.sigmoid
        ++ [PyLayer.output (ns.getLast h)] := by
    intro ns h
    unfold generate_layers
    rw [List.getLast?_eq_getLast ns h]
  refine ⟨?_, ?_, ?_⟩
  · intro ns hlen
    have hne : ns ≠ [] := by
      intro h
      rw [h] at hlen
      simp at hlen
    have hgne : generate_layers ns ≠ [] := by
      rw [hgen ns hne]
      simp
    have hout : outputOk (generate_layers ns) = true := by
      rw [hgen ns hne]
      unfold outputOk
      rw [List.getLast?_concat]
      rfl
    refine ⟨?_, ?_, hout⟩
    · simp only [clean_layers]
      rw [chainLayers_eq_self _ hgne]
      simp only [hout, if_true]
    · rw [hgen ns hne]
      simp only [List.length_append, List.length_map, List.length_dropLast,
        List.length_singleton]
      omega
  · intro spec c h
    rcases spec with ns | ls | ls
      <;> simp only [clean_layers] at h
    · rcases hc : chainLayers (generate_layers ns) with _ | c2
      · rw [hc] at h
        simp at h
      · rw [hc] at h
        simp only [] at h
        split_ifs at h with hcond
        · cases h
          exact hcond
    · rcases hc : chainLayers ls with _ | c2
      · rw [hc] at h
        simp at h
      · rw [hc] at h
        simp only [] at h
        split_ifs at h with hcond
        · cases h
          exact hcond
    · split_ifs at h with hcond
      · cases h
        exact hcond
  · intro ls hne hout
    simp only [clean_layers]
    rw [chainLayers_eq_self ls hne]
    simp only [hout]
    rfl

/-- C6 witness: the size list `[2, 3, 1]` builds a three-layer chain ending
in an output layer, and a two-layer list with a non-output final layer is
rejected. -/
theorem C6_witness :
    2 ≤ ([2, 3, 1] : List ℕ).length
    ∧ clean_layers (ConnSpec.ints [2, 3, 1]) = Except.ok (generate_layers [2, 3, 1])
    ∧ (generate_layers [2, 3, 1]).length = 3
    ∧ outputOk (generate_layers [2, 3, 1]) = true
    ∧ clean_layers (ConnSpec.layerList [PyLayer.sigmoid 2, PyLayer.tanh 3])
        = Except.error "Final layer must be Output class instance." := by
  have h := C6_theorem.1 [2, 3, 1] (by decide)
  exact ⟨by decide, h.1, h.2.1, h.2.2,
    C6_theorem.2.2 [PyLayer.sigmoid 2, PyLayer.tanh 3] (by decide) (by decide)⟩

/-! ## Loop lemmas -/

/-- The fields of the pre-call state: the epoch number is written to the
model and the shared scalar, the observed epoch is traced, and everything
the loop accounts for later is untouched. -/
theorem preStep_net (ctx : TrainCtx) (e : ℕ) (s : RunState) :
    (preStep ctx e s).net.sharedEpoch = e
    ∧ (preStep ctx e s).net.epoch = e
    ∧ (preStep ctx e s).net.trace = s.net.trace ++ [e]
    ∧ (preStep ctx e s).net.errors_in = s.net.errors_in
    ∧ (preStep ctx e s).net.trainEndCalls = s.net.trainEndCalls
    ∧ (preStep ctx e s).net.stopped = s.net.stopped
    ∧ (preStep ctx e s).net.cadenceUsed = s.net.cadenceUsed
    ∧ (preStep ctx e s).net.warnings = s.net.warnings := by
  simp only [preStep]
  repeat' split
  all_goals simp

/-- One epoch-loop iteration never touches the resolved-cadence and warning
ghost fields nor the train-end counter. -/
theorem epochBody_ghost (ctx : TrainCtx) (b : Bool) (e : ℕ) (s : RunState) :
    ((epochBody ctx b e s).1).net.cadenceUsed = s.net.cadenceUsed
    ∧ ((epochBody ctx b e s).1).net.warnings = s.net.warnings
    ∧ ((epochBody ctx b e s).1).net.trainEndCalls = s.net.trainEndCalls := by
  have hpre := preStep_net ctx e s
  simp only [epochBody]
  repeat' split
  all_goals simp [hpre.2.2.2.2.1, hpre.2.2.2.2.2.2.1, hpre.2.2.2.2.2.2.2]

/-- When the train-epoch unit raises the stop signal at epoch `e`, the
iteration records the observed shared epoch, leaves the error history and
the train-end counter alone, marks the run stopped, and breaks. -/
theorem epochBody_stop (ctx : TrainCtx) (b : Bool) (e : ℕ) (s : RunState)
    (hstop : ∀ d td st, ∃ m, ctx.trainEpoch d td e st = Except.error m) :
    (epochBody ctx b e s).2 = true
    ∧ ((epochBody ctx b e s).1).net.trace = s.net.trace ++ [e]
    ∧ ((epochBody ctx b e s).1).net.errors_in = s.net.errors_in
    ∧ ((epochBody ctx b e s).1).net.trainEndCalls = s.net.trainEndCalls
    ∧ ((epochBody ctx b e s).1).net.stopped = true
    ∧ ((epochBody ctx b e s).1).net.epoch = e := by
  have hpre := preStep_net ctx e s
  obtain ⟨m, hm⟩ := hstop ((preStep ctx e s).net.input_train.getD [])
    (preStep ctx e s).net.target_train (preStep ctx e s).net.sharedStep
  simp only [epochBody, hpre.1, hm]
  simp [hpre.1, hpre.2.1, hpre.2.2.1, hpre.2.2.2.1, hpre.2.2.2.2.1]

/-- When the train-epoch unit succeeds at epoch `e`, the iteration records
the observed shared epoch, appends exactly one training error, preserves the
stop flag and the train-end counter, and continues. -/
theorem epochBody_ok (ctx : TrainCtx) (b : Bool) (e : ℕ) (s : RunState)
    (hok : ∀ d td st, ∃ p, ctx.trainEpoch d td e st = Except.ok p) :
    (epochBody ctx b e s).2 = false
    ∧ ((epochBody ctx b e s).1).net.trace = s.net.trace ++ [e]
    ∧ ((epochBody ctx b e s).1).net.errors_in.length = s.net.errors_in.length + 1
    ∧ ((epochBody ctx b e s).1).net.trainEndCalls = s.net.trainEndCalls
    ∧ ((epochBody ctx b e s).1).net.stopped = s.net.stopped
    ∧ ((epochBody ctx b e s).1).net.epoch = e := by
  have hpre := preStep_net ctx e s
  obtain ⟨⟨err, newStep⟩, hp⟩ := hok ((preStep ctx e s).net.input_train.getD [])
    (preStep ctx e s).net.target_train (preStep ctx e s).net.sharedStep
  simp only [epochBody, hpre.1, hp]
  repeat' split
  all_goals simp [hpre.1, hpre.2.1, hpre.2.2.1, hpre.2.2.2.1, hpre.2.2.2.2.1,
    hpre.2.2.2.2.2.1]

/-- The post-loop epilogue preserves the error history, the trace, the stop
flag and the ghost fields, and bumps the train-end counter exactly when the
train-end signal is set; it fails with `NameError` exactly when the loop
variable was never bound. -/
theorem afterLoop_props (ctx : TrainCtx) (s : RunState) (lastE : ℕ) :
    (afterLoop ctx (s, some lastE)).2 = none
    ∧ ((afterLoop ctx (s, some lastE)).1).net.errors_in = s.net.errors_in
    ∧ ((afterLoop ctx (s, some lastE)).1).net.trace = s.net.trace
    ∧ ((afterLoop ctx (s, some lastE)).1).net.stopped = s.net.stopped
    ∧ ((afterLoop ctx (s, some lastE)).1).net.cadenceUsed = s.net.cadenceUsed
    ∧ ((afterLoop ctx (s, some lastE)).1).net.warnings = s.net.warnings
    ∧ ((afterLoop ctx (s, some lastE)).1).net.trainEndCalls
        = s.net.trainEndCalls + (if ctx.hasTrainEnd then 1 else 0)
    ∧ (afterLoop ctx (s, none)).2 = some PyError.nameError
    ∧ ((afterLoop ctx (s, none)).1) = s := by
  refine ⟨?_, ?_, ?_, ?_, ?_, ?_, ?_, rfl, rfl⟩
    <;> simp only [afterLoop]
    <;> repeat' split
  all_goals simp_all

/-- Running the fixed-count loop on epochs `a, a+1, ...` with a train-epoch
unit that succeeds strictly below `e0` and raises the stop signal at `e0`:
the loop visits exactly the epochs `a..e0`, appends one training error per
epoch strictly before `e0`, marks the run stopped, and leaves the train-end
counter alone. -/
theorem runEpochs_stopAt (ctx : TrainCtx) (b : Bool) (e0 : ℕ)
    (hok : ∀ (e : ℕ), e ≠ e0 → ∀ d td st, ∃ p, ctx.trainEpoch d td e st = Except.ok p)
    (hstop : ∀ d td st, ∃ m, ctx.trainEpoch d td e0 st = Except.error m) :
    ∀ (n a : ℕ) (s : RunState), a ≤ e0 → e0 < a + n →
      (runEpochs ctx b (List.range' a n) s).2 = some e0
      ∧ ((runEpochs ctx b (List.range' a n) s).1).net.trace
          = s.net.trace ++ List.range' a (e0 - a + 1)
      ∧ ((runEpochs ctx b (List.range' a n) s).1).net.errors_in.length
          = s.net.errors_in.length + (e0 - a)
      ∧ ((runEpochs ctx b (List.range' a n) s).1).net.trainEndCalls
          = s.net.trainEndCalls
      ∧ ((runEpochs ctx b (List.range' a n) s).1).net.stopped = true := by
  intro n
  induction n with
  | zero =>
    intro a s ha hlt
    omega
  | succ m ih =>
    intro a s ha hlt
    rw [List.range'_succ]
    by_cases he : a = e0
    · subst he
      have hb := epochBody_stop ctx b a s hstop
      simp only [runEpochs, hb.1, if_true]
      refine ⟨by simp, ?_, ?_, hb.2.2.2.1, hb.2.2.2.2.1⟩
      · rw [hb.2.1]
        congr 1
        have : a - a + 1 = 1 := by omega
        rw [this]
        rfl
      · rw [hb.2.2.1]
        omega
    · have hb := epochBody_ok ctx b a s (hok a he)
      simp only [runEpochs, hb.1, Bool.false_eq_true, if_false]
      have ha2 : a + 1 ≤ e0 := by omega
      have hlt2 : e0 < (a + 1) + m := by omega
      have hrec := ih (a + 1) (epochBody ctx b a s).1 ha2 hlt2
      refine ⟨?_, ?_, ?_, ?_, hrec.2.2.2.2⟩
      · simp only [hrec.1]
        rfl
      · rw [hrec.2.1, hb.2.1]
        rw [List.append_assoc]
        congr 1
        have hrange : e0 - a + 1 = (e0 - (a + 1) + 1) + 1 := by omega
        rw [hrange, List.range'_succ]
        rfl
      · rw [hrec.2.2.1, hb.2.2.1]
        omega
      · rw [hrec.2.2.2.1, hb.2.2.2.1]

/-- Running the fixed-count loop with a train-epoch unit that always
succeeds: every listed epoch runs, each appending one training error and
recording its epoch number, the stop flag is preserved, and the loop
variable ends bound whenever at least one epoch ran. -/
theorem runEpochs_allOk (ctx : TrainCtx) (b : Bool)
    (hok : ∀ (e : ℕ) d td st, ∃ p, ctx.trainEpoch d td e st = Except.ok p) :
    ∀ (L : List ℕ) (s : RunState),
      ((runEpochs ctx b L s).1).net.trace = s.net.trace ++ L
      ∧ ((runEpochs ctx b L s).1).net.errors_in.length
          = s.net.errors_in.length + L.length
      ∧ ((runEpochs ctx b L s).1).net.trainEndCalls = s.net.trainEndCalls
      ∧ ((runEpochs ctx b L s).1).net.stopped = s.net.stopped
      ∧ (L ≠ [] → ∃ m, (runEpochs ctx b L s).2 = some m) := by
  intro L
  induction L with
  | nil =>
    intro s
    simp [runEpochs]
  | cons e rest ih =>
    intro s
    have hb := epochBody_ok ctx b e s (hok e)
    simp only [runEpochs, hb.1, Bool.false_eq_true, if_false]
    have hrec := ih (epochBody ctx b e s).1
    refine ⟨?_, ?_, ?_, ?_, fun _ => ⟨_, rfl⟩⟩
    · rw [hrec.1, hb.2.1]
      simp
    · rw [hrec.2.1, hb.2.2.1]
      simp only [List.length_cons]
      omega
    · rw [hrec.2.2.1, hb.2.2.2.1]
    · rw [hrec.2.2.2.1, hb.2.2.2.2.1]

/-- The convergence-mode loop never touches the ghost cadence and warning
fields. -/
theorem runEpochsConverge_ghost (ctx : TrainCtx) (b : Bool) (ε : ℚ) (M : ℕ) :
    ∀ (fuel e : ℕ) (s : RunState),
      ((runEpochsConverge ctx b ε M e fuel s).1).net.cadenceUsed = s.net.cadenceUsed
      ∧ ((runEpochsConverge ctx b ε M e fuel s).1).net.warnings = s.net.warnings := by
  intro fuel
  induction fuel with
  | zero =>
    intro e s
    exact ⟨rfl, rfl⟩
  | succ m ih =>
    intro e s
    have hb := epochBody_ghost ctx b e s
    simp only [runEpochsConverge]
    split
    · exact ⟨hb.1, hb.2.1⟩
    · split
      · exact ⟨hb.1, hb.2.1⟩
      · split
        · split
          · exact ⟨hb.1, hb.2.1⟩
          · have hrec := ih (e + 1) (epochBody ctx b e s).1
            exact ⟨hrec.1.trans hb.1, hrec.2.trans hb.2.1⟩
        · have hrec := ih (e + 1) (epochBody ctx b e s).1
          exact ⟨hrec.1.trans hb.1, hrec.2.trans hb.2.1⟩

/-- The fixed-count loop never touches the ghost cadence and warning
fields. -/
theorem runEpochs_ghost (ctx : TrainCtx) (b : Bool) :
    ∀ (L : List ℕ) (s : RunState),
      ((runEpochs ctx b L s).1).net.cadenceUsed = s.net.cadenceUsed
      ∧ ((runEpochs ctx b L s).1).net.warnings = s.net.warnings := by
  intro L
  induction L with
  | nil =>
    intro s
    exact ⟨rfl, rfl⟩
  | cons e rest ih =>
    intro s
    have hb := epochBody_ghost ctx b e s
    simp only [runEpochs]
    split
    · exact ⟨hb.1, hb.2.1⟩
    · have hrec := ih (epochBody ctx b e s).1
      exact ⟨hrec.1.trans hb.1, hrec.2.trans hb.2.1⟩

/-- The convergence-mode loop terminates with the loop variable bound (it
always runs epoch `e` once when given fuel). -/
theorem runEpochsConverge_isSome (ctx : TrainCtx) (b : Bool) (ε : ℚ) (M : ℕ) :
    ∀ (fuel e : ℕ) (s : RunState), fuel ≠ 0 →
      ∃ m, (runEpochsConverge ctx b ε M e fuel s).2 = some m := by
  intro fuel
  induction fuel with
  | zero =>
    intro e s h
    exact absurd rfl h
  | succ m ih =>
    intro e s _
    simp only [runEpochsConverge]
    split
    · exact ⟨_, rfl⟩
    · split
      · exact ⟨_, rfl⟩
      · split
        · split
          · exact ⟨_, rfl⟩
          · exact ⟨_, rfl⟩
        · exact ⟨_, rfl⟩

/-- The post-loop epilogue, stated for an arbitrary loop result: it
preserves the error history, trace, stop flag and ghost fields, bumps the
train-end counter exactly when the loop variable was bound and the
train-end signal is set, and escapes with `NameError` exactly when the loop
variable was never bound. -/
theorem afterLoop_net (ctx : TrainCtx) (r : RunState × Option ℕ) :
    ((afterLoop ctx r).1).net.errors_in = (r.1).net.errors_in
    ∧ ((afterLoop ctx r).1).net.trace = (r.1).net.trace
    ∧ ((afterLoop ctx r).1).net.stopped = (r.1).net.stopped
    ∧ ((afterLoop ctx r).1).net.cadenceUsed = (r.1).net.cadenceUsed
    ∧ ((afterLoop ctx r).1).net.warnings = (r.1).net.warnings
    ∧ ((afterLoop ctx r).1).net.trainEndCalls
        = (r.1).net.trainEndCalls + (if r.2.isSome ∧ ctx.hasTrainEnd then 1 else 0)
    ∧ ((afterLoop ctx r).2 = none ↔ r.2.isSome) := by
  rcases r with ⟨s, lastE⟩
  rcases lastE with _ | lastE
  · have h := afterLoop_props ctx s 0
    refine ⟨?_, ?_, ?_, ?_, ?_, ?_, ?_⟩
      <;> simp [h.2.2.2.2.2.2.2.1, h.2.2.2.2.2.2.2.2]
  · have h := afterLoop_props ctx s lastE
    refine ⟨h.2.1, h.2.2.1, h.2.2.2.1, h.2.2.2.2.1, h.2.2.2.2.2.1, ?_, ?_⟩
    · rw [h.2.2.2.2.2.2.1]
      simp
    · simp [h.1]

/-- Unfolded form of `pyTrain` in fixed-epoch mode: with `epsilon = None`
the validation guard never fires and the run is the fixed-range loop
followed by the epilogue. -/
theorem pyTrain_none_eq (ctx : TrainCtx) (spec : ShowEpochSpec) (epochs : ℕ)
    (input_train : Data) (target_train input_test target_test : Option Data)
    (s0 : NetState) :
    pyTrain ctx spec none epochs input_train target_train input_test target_test s0
      = (let ke := resolveShowEpoch none spec epochs
         let ceo := input_test.isSome && target_test.isSome
         let net1 := { s0 with
           warnings := s0.warnings + ke.2
           cadenceUsed := ke.1
           input_train := some input_train
           target_train := target_train }
         let rs : RunState :=
           { net := net1, sum := initSummary ke.1, showEpoch := ke.1,
             lastEpochShown := 0, clock := 0 }
         let fin := afterLoop ctx (runEpochs ctx ceo (List.range' 1 epochs) rs)
         (fin.1.net, fin.2)) := by
  simp only [pyTrain]
  rw [if_neg (by simp)]

/-- Unfolded form of `pyTrain` in convergence mode with enough epochs: the
validation guard passes and the run is the convergence loop followed by the
epilogue. -/
theorem pyTrain_some_eq (ctx : TrainCtx) (spec : ShowEpochSpec) (ε : ℚ) (epochs : ℕ)
    (input_train : Data) (target_train input_test target_test : Option Data)
    (s0 : NetState) (h : ¬ epochs ≤ 2) :
    pyTrain ctx spec (some ε) epochs input_train target_train input_test target_test s0
      = (let ke := resolveShowEpoch (some ε) spec epochs
         let ceo := input_test.isSome && target_test.isSome
         let net1 := { s0 with
           warnings := s0.warnings + ke.2
           cadenceUsed := ke.1
           input_train := some input_train
           target_train := target_train }
         let rs : RunState :=
           { net := net1, sum := initSummary ke.1, showEpoch := ke.1,
             lastEpochShown := 0, clock := 0 }
         let fin := afterLoop ctx (runEpochsConverge ctx ceo ε epochs 1 epochs rs)
         (fin.1.net, fin.2)) := by
  simp only [pyTrain]
  rw [if_neg (by simp [h])]

/-- A benign run context: zero clock, an always-succeeding train-epoch unit
that returns error 0 and keeps the step, no shuffling, with the train-end
signal set. -/
def okCtx : TrainCtx where
  timeAt := fun _ => 0
  trainEpoch := fun _ _ _ st => Except.ok (0, st)
  predictionError := fun _ => 0
  hasEpochEnd := false
  hasTrainEnd := true
  shuffleData := false
  shuf := fun d t => (d, t)

/-- Like `okCtx`, but the train-epoch unit raises the stop-training signal
at epoch 7. -/
def stop7Ctx : TrainCtx :=
  { okCtx with
    trainEpoch := fun _ _ e st =>
      if e = 7 then Except.error "stop" else Except.ok (0, st) }

/-- C4: with `epsilon` given and `epochs ≤ 2` the training entry point
raises `ValueError` before any epoch executes: the returned model state is
exactly the input state — error histories, epoch counter and stored train
tensors untouched. -/
theorem C4_theorem (ctx : TrainCtx) (spec : ShowEpochSpec) (ε : ℚ) (epochs : ℕ)
    (input_train : Data) (target_train input_test target_test : Option Data)
    (s0 : NetState) (h : epochs ≤ 2) :
    pyTrain ctx spec (some ε) epochs input_train target_train input_test target_test s0
        = (s0, some PyError.valueError) := by
  simp only [pyTrain]
  rw [if_pos (by simp [h])]

/-- C4 witness: `epochs = 2` with `epsilon = 1` on a fresh network fails
with `ValueError` and leaves the state untouched. -/
theorem C4_witness :
    (2 : ℕ) ≤ 2
    ∧ pyTrain okCtx (ShowEpochSpec.times 10) (some 1) 2 [0] none none none initialNet
        = (initialNet, some PyError.valueError) :=
  ⟨by decide,
   C4_theorem okCtx (ShowEpochSpec.times 10) 1 2 [0] none none none initialNet (by decide)⟩

/-- C10: with `epsilon = None` and `epochs = 0` the epoch range is empty, so
no epoch body runs (the trace and error history are unchanged), the
post-loop check reads the never-bound loop variable and the call fails with
`NameError`; the train-end signal is not invoked. -/
theorem C10_theorem (ctx : TrainCtx) (spec : ShowEpochSpec)
    (input_train : Data) (target_train input_test target_test : Option Data)
    (s0 : NetState) :
    (pyTrain ctx spec none 0 input_train target_train input_test target_test s0).2
        = some PyError.nameError
    ∧ ((pyTrain ctx spec none 0 input_train target_train input_test target_test s0).1).errors_in
        = s0.errors_in
    ∧ ((pyTrain ctx spec none 0 input_train target_train input_test target_test s0).1).trace
        = s0.trace
    ∧ ((pyTrain ctx spec none 0 input_train target_train input_test target_test s0).1).trainEndCalls
        = s0.trainEndCalls := by
  rw [pyTrain_none_eq]
  exact ⟨rfl, rfl, rfl, rfl⟩

/-- C7: in a fixed-count run whose train-epoch unit never raises, the ghost
trace — which records the shared epoch scalar at the moment each
train-epoch call reads it, written by `epoch_start_update` just before the
call — is exactly `1, 2, ..., n`: the epoch counter starts at 1 and
increases by exactly 1 per completed epoch, every update expression
evaluated during epoch `e` observes epoch number `e`, one training error is
appended per epoch, and the run ends without an exception. -/
theorem C7_theorem (ctx : TrainCtx) (spec : ShowEpochSpec) (n : ℕ)
    (input_train : Data) (target_train input_test target_test : Option Data)
    (s0 : NetState)
    (hok : ∀ (e : ℕ) (d : Data) (td : Option Data) (st : ℚ),
      ∃ p, ctx.trainEpoch d td e st = Except.ok p)
    (hn : 1 ≤ n) :
    ((pyTrain ctx spec none n input_train target_train input_test target_test s0).1).trace
        = s0.trace ++ List.range' 1 n
    ∧ ((pyTrain ctx spec none n input_train target_train input_test target_test s0).1).errors_in.length
        = s0.errors_in.length + n
    ∧ (pyTrain ctx spec none n input_train target_train input_test target_test s0).2 = none := by
  rw [pyTrain_none_eq]
  have hne : List.range' 1 n ≠ [] := by
    simp [List.range'_eq_nil]
    omega
  refine ⟨?_, ?_, ?_⟩
  · rw [(afterLoop_net ctx _).2.1,
      (runEpochs_allOk ctx _ (fun e d td st => hok e d td st) (List.range' 1 n) _).1]
  · rw [(afterLoop_net ctx _).1,
      (runEpochs_allOk ctx _ (fun e d td st => hok e d td st) (List.range' 1 n) _).2.1]
    simp
  · obtain ⟨m, hm⟩ :=
      ((runEpochs_allOk ctx _ (fun e d td st => hok e d td st) (List.range' 1 n) _).2.2.2.2) hne
    exact (afterLoop_net ctx _).2.2.2.2.2.2.mpr (by rw [hm]; rfl)

/-- C7 witness: a three-epoch run on a fresh network traces exactly the
epochs 1, 2, 3, appends three errors and raises nothing. -/
theorem C7_witness :
    (1 : ℕ) ≤ 3
    ∧ ((pyTrain okCtx (ShowEpochSpec.times 10) none 3 [0] none none none initialNet).1).trace
        = initialNet.trace ++ List.range' 1 3
    ∧ (pyTrain okCtx (ShowEpochSpec.times 10) none 3 [0] none none none initialNet).2 = none := by
  have h := C7_theorem okCtx (ShowEpochSpec.times 10) 3 [0] none none none initialNet
    (fun e d td st => ⟨(0, st), rfl⟩) (by decide)
  exact ⟨by decide, h.1, h.2.2⟩

/-- C3 counterexample: a convergence-mode run with an integer cadence
(`show_epoch = 7`) keeps the user cadence and surfaces no warning — the
claim that every convergence-mode run uses a fixed interval of 100 with one
warning is false. -/
theorem C3_counterexample :
    ((pyTrain okCtx (ShowEpochSpec.int 7) (some 1) 5 [0] none none none initialNet).1).cadenceUsed ≠ 100
    ∧ ((pyTrain okCtx (ShowEpochSpec.int 7) (some 1) 5 [0] none none none initialNet).1).warnings = 0 := by
  rw [pyTrain_some_eq okCtx (ShowEpochSpec.int 7) 1 5 [0] none none none initialNet (by omega)]
  constructor
  · rw [(afterLoop_net okCtx _).2.2.2.1, (runEpochsConverge_ghost okCtx _ 1 5 5 1 _).1]
    decide
  · rw [(afterLoop_net okCtx _).2.2.2.2.1, (runEpochsConverge_ghost okCtx _ 1 5 5 1 _).2]
    rfl

/-- C3 (amended): in convergence mode only a string cadence (`"N times"`)
is replaced by the fixed interval 100, with the warning surfaced exactly
once before training starts; an integer cadence is used unchanged with no
warning. -/
theorem C3_amended (ctx : TrainCtx) (ε : ℚ) (epochs : ℕ)
    (input_train : Data) (target_train input_test target_test : Option Data)
    (s0 : NetState) (h : 3 ≤ epochs) :
    (∀ N : ℕ,
      ((pyTrain ctx (ShowEpochSpec.times N) (some ε) epochs input_train target_train
          input_test target_test s0).1).cadenceUsed = 100
      ∧ ((pyTrain ctx (ShowEpochSpec.times N) (some ε) epochs input_train target_train
          input_test target_test s0).1).warnings = s0.warnings + 1)
    ∧ (∀ v : ℕ,
      ((pyTrain ctx (ShowEpochSpec.int v) (some ε) epochs input_train target_train
          input_test target_test s0).1).cadenceUsed = v
      ∧ ((pyTrain ctx (ShowEpochSpec.int v) (some ε) epochs input_train target_train
          input_test target_test s0).1).warnings = s0.warnings) := by
  constructor
  · intro N
    rw [pyTrain_some_eq ctx (ShowEpochSpec.times N) ε epochs input_train target_train
      input_test target_test s0 (by omega)]
    constructor
    · rw [(afterLoop_net ctx _).2.2.2.1, (runEpochsConverge_ghost ctx _ ε epochs epochs 1 _).1]
      rfl
    · rw [(afterLoop_net ctx _).2.2.2.2.1, (runEpochsConverge_ghost ctx _ ε epochs epochs 1 _).2]
      rfl
  · intro v
    rw [pyTrain_some_eq ctx (ShowEpochSpec.int v) ε epochs input_train target_train
      input_test target_test s0 (by omega)]
    constructor
    · rw [(afterLoop_net ctx _).2.2.2.1, (runEpochsConverge_ghost ctx _ ε epochs epochs 1 _).1]
      rfl
    · rw [(afterLoop_net ctx _).2.2.2.2.1, (runEpochsConverge_ghost ctx _ ε epochs epochs 1 _).2]
      rfl

/-- C3 witness: a five-epoch convergence run with the string cadence
`"10 times"` resolves the cadence to 100 with exactly one warning, and with
the integer cadence 7 keeps 7 with no warning. -/
theorem C3_witness :
    (3 : ℕ) ≤ 5
    ∧ ((pyTrain okCtx (ShowEpochSpec.times 10) (some 1) 5 [0] none none none initialNet).1).cadenceUsed = 100
    ∧ ((pyTrain okCtx (ShowEpochSpec.times 10) (some 1) 5 [0] none none none initialNet).1).warnings
        = initialNet.warnings + 1
    ∧ ((pyTrain okCtx (ShowEpochSpec.int 7) (some 1) 5 [0] none none none initialNet).1).cadenceUsed = 7 := by
  have h := C3_amended okCtx 1 5 [0] none none none initialNet (by decide)
  exact ⟨by decide, (h.1 10).1, (h.1 10).2, (h.2 7).1⟩

/-- C1 counterexample: in a 100-epoch run whose train-epoch unit raises the
stop signal on epoch 7, the loop does stop at epoch 7 (the trace is
`1..7`), but `errors_in` does not have length 7 — the error of the stopping
epoch is never appended. -/
theorem C1_counterexample :
    ((pyTrain stop7Ctx (ShowEpochSpec.times 10) none 100 [0] none none none initialNet).1).stopped = true
    ∧ ((pyTrain stop7Ctx (ShowEpochSpec.times 10) none 100 [0] none none none initialNet).1).trace
        = List.range' 1 7
    ∧ ((pyTrain stop7Ctx (ShowEpochSpec.times 10) none 100 [0] none none none initialNet).1).errors_in.length
        ≠ 7 := by
  have hok : ∀ (e : ℕ), e ≠ 7 → ∀ (d : Data) (td : Option Data) (st : ℚ),
      ∃ p, stop7Ctx.trainEpoch d td e st = Except.ok p := by
    intro e he d td st
    exact ⟨(0, st), by simp [stop7Ctx, okCtx, he]⟩
  have hstop : ∀ (d : Data) (td : Option Data) (st : ℚ),
      ∃ m, stop7Ctx.trainEpoch d td 7 st = Except.error m := by
    intro d td st
    exact ⟨"stop", by simp [stop7Ctx, okCtx]⟩
  rw [pyTrain_none_eq]
  refine ⟨?_, ?_, ?_⟩
  · rw [(afterLoop_net stop7Ctx _).2.2.1,
      (runEpochs_stopAt stop7Ctx _ 7 hok hstop 100 1 _ (by omega) (by omega)).2.2.2.2]
  · rw [(afterLoop_net stop7Ctx _).2.1,
      (runEpochs_stopAt stop7Ctx _ 7 hok hstop 100 1 _ (by omega) (by omega)).2.1]
    rfl
  · rw [(afterLoop_net stop7Ctx _).1,
      (runEpochs_stopAt stop7Ctx _ 7 hok hstop 100 1 _ (by omega) (by omega)).2.2.1]
    decide

/-- C1 (amended): if the train-epoch unit raises the stop signal on epoch 7
of a 100-epoch run, the loop stops at epoch 7 (no further epoch executes:
the trace is exactly `1..7`), `errors_in` gains exactly 6 entries — one per
epoch completed before the stop; the stopping epoch appends none — the run
is marked stopped early, the train-end signal still fires exactly once, and
no exception escapes. -/
theorem C1_theorem (ctx : TrainCtx) (spec : ShowEpochSpec)
    (input_train : Data) (target_train input_test target_test : Option Data)
    (s0 : NetState)
    (hok : ∀ (e : ℕ), e ≠ 7 → ∀ (d : Data) (td : Option Data) (st : ℚ),
      ∃ p, ctx.trainEpoch d td e st = Except.ok p)
    (hstop : ∀ (d : Data) (td : Option Data) (st : ℚ),
      ∃ m, ctx.trainEpoch d td 7 st = Except.error m)
    (hTE : ctx.hasTrainEnd = true) :
    ((pyTrain ctx spec none 100 input_train target_train input_test target_test s0).1).errors_in.length
        = s0.errors_in.length + 6
    ∧ ((pyTrain ctx spec none 100 input_train target_train input_test target_test s0).1).stopped = true
    ∧ ((pyTrain ctx spec none 100 input_train target_train input_test target_test s0).1).trace
        = s0.trace ++ List.range' 1 7
    ∧ ((pyTrain ctx spec none 100 input_train target_train input_test target_test s0).1).trainEndCalls
        = s0.trainEndCalls + 1
    ∧ (pyTrain ctx spec none 100 input_train target_train input_test target_test s0).2 = none := by
  rw [pyTrain_none_eq]
  refine ⟨?_, ?_, ?_, ?_, ?_⟩
  · rw [(afterLoop_net ctx _).1,
      (runEpochs_stopAt ctx _ 7 hok hstop 100 1 _ (by omega) (by omega)).2.2.1]
  · rw [(afterLoop_net ctx _).2.2.1,
      (runEpochs_stopAt ctx _ 7 hok hstop 100 1 _ (by omega) (by omega)).2.2.2.2]
  · rw [(afterLoop_net ctx _).2.1,
      (runEpochs_stopAt ctx _ 7 hok hstop 100 1 _ (by omega) (by omega)).2.1]
  · rw [(afterLoop_net ctx _).2.2.2.2.2.1,
      (runEpochs_stopAt ctx _ 7 hok hstop 100 1 _ (by omega) (by omega)).2.2.2.1]
    rw [(runEpochs_stopAt ctx _ 7 hok hstop 100 1 _ (by omega) (by omega)).1]
    simp [hTE]
  · refine (afterLoop_net ctx _).2.2.2.2.2.2.mpr ?_
    rw [(runEpochs_stopAt ctx _ 7 hok hstop 100 1 _ (by omega) (by omega)).1]
    rfl

/-- C1 witness: the concrete stop-at-7 unit on a fresh network: 6 recorded
errors, stopped early at epoch 7, train-end signal fired once, no escaped
exception. -/
theorem C1_witness :
    stop7Ctx.hasTrainEnd = true
    ∧ ((pyTrain stop7Ctx (ShowEpochSpec.times 10) none 100 [1] none none none initialNet).1).errors_in.length
        = initialNet.errors_in.length + 6
    ∧ ((pyTrain stop7Ctx (ShowEpochSpec.times 10) none 100 [1] none none none initialNet).1).trainEndCalls
        = initialNet.trainEndCalls + 1 := by
  have h := C1_theorem stop7Ctx (ShowEpochSpec.times 10) [1] none none none initialNet
    (fun e he d td st => ⟨(0, st), by simp [stop7Ctx, okCtx, he]⟩)
    (fun d td st => ⟨"stop", by simp [stop7Ctx, okCtx]⟩)
    rfl
  exact ⟨rfl, h.1, h.2.2.2.1⟩

end Neupy
